import Mathlib

/-!
Verification of the pueue fragments (log store, task-handler dispatch,
follow loop, test harness, settings compatibility).

Files are modelled as `List Nat` byte streams (newline = byte 10), paths as
lists of components, and the stateful loops as explicit state-passing
functions.  Definitions follow the Rust sources in `src/`; parts of the
repository that are referenced but not present under `src/` are modelled
from the specification and marked as such in their doc comments.
-/

set_option maxHeartbeats 1000000
set_option maxRecDepth 8192

namespace Pueue

/-- The newline byte used by all line-oriented log operations. -/

def newlineByte : Nat := 10

/-! ### Decimal rendering of task ids -/

/-- Decimal digits of a natural number, most significant first.  This models
the digit sequence produced by Rust `format!("{task_id}")` inside
`get_log_paths` (src/lib/src/log.rs:14-15). -/

def toDigits (n : Nat) : List Nat :=
  if n < 10 then [n] else toDigits (n / 10) ++ [n % 10]
termination_by n
decreasing_by
  exact Nat.div_lt_self (by omega) (by omega)

/-- Reassemble a digit list into the number it denotes. -/

def fromDigits (ds : List Nat) : Nat :=
  ds.foldl (fun a d => a * 10 + d) 0

/-! ### `get_log_paths` (src/lib/src/log.rs:12-17) -/

/-- A filesystem path, modelled as its list of components (each a byte list);
`Path::join` appends a component. -/

abbrev PathC := List (List Nat)

/-- Bytes of the ASCII string `"task_logs"`. -/

def taskLogsComponent : List Nat := [116, 97, 115, 107, 95, 108, 111, 103, 115]

/-- Bytes of the ASCII string `"_stdout.log"`. -/

def stdoutNameTail : List Nat := [95, 115, 116, 100, 111, 117, 116, 46, 108, 111, 103]

/-- Bytes of the ASCII string `"_stderr.log"`. -/

def stderrNameTail : List Nat := [95, 115, 116, 100, 101, 114, 114, 46, 108, 111, 103]

/-- `get_log_paths` from src/lib/src/log.rs:12-17: the `(stdout, stderr)` log
file paths of a task, `root/task_logs/{id}_stdout.log` and
`root/task_logs/{id}_stderr.log`. -/

def get_log_paths (task_id : Nat) (path : PathC) : PathC × PathC :=
  let task_log_dir := path ++ [taskLogsComponent]
  let out_path := task_log_dir ++ [toDigits task_id ++ stdoutNameTail]
  let err_path := task_log_dir ++ [toDigits task_id ++ stderrNameTail]
  (out_path, err_path)

/-! ### `wait_for_shutdown` (src/tests/helper/daemon.rs:62-85) -/

/-- Number of polling attempts in `wait_for_shutdown` (`tries = 40`). -/

def shutdownTries : Nat := 40

/-- Milliseconds slept between polling attempts (`sleep_ms(50)`). -/

def shutdownPollMs : Nat := 50

/-- The polling loop of `wait_for_shutdown` (src/tests/helper/daemon.rs:73-84):
while `current_try < tries`, an alive sample sleeps 50 ms and retries; a dead
sample returns success; exhausting the tries is an error (`false`).
`alive i` models the result of `process.is_alive()` on the `i`-th attempt. -/

def shutdownLoop (alive : Nat → Bool) (current tries : Nat) : Bool :=
  if current < tries then
    if alive current then shutdownLoop alive (current + 1) tries else true
  else false
termination_by tries - current

/-- `wait_for_shutdown` (src/tests/helper/daemon.rs:62-85).  `lookup_ok`
models whether `procfs::process::Process::new(pid)` succeeded at entry; on
failure the function returns `Ok(())` immediately. -/

def wait_for_shutdown (lookup_ok : Bool) (alive : Nat → Bool) : Bool :=
  if lookup_ok then shutdownLoop alive 0 shutdownTries else true

/-! ### Task-handler message dispatch (src/daemon/task_handler/messages/mod.rs)

The `TaskHandler` state, the individual message handlers
(`pause`, `start`, `kill`, `send`, `reset`, `handle_group_message`,
`initiate_shutdown`) and the `Message` enum live in repository files that are
not present under `src/`; they are modelled from the specification
(sections 3, 4.3 and 4.5). -/

/-- Modelled from the spec: terminal results of a task (section 4.4). -/

inductive DoneResult where
  | success
  | failure
  | killed
  | dependencyFailed
deriving DecidableEq, Repr

/-- Modelled from the spec: task statuses (section 3). -/

inductive TaskStatus where
  | queued
  | stashed
  | locked
  | running
  | paused
  | done (r : DoneResult)
deriving DecidableEq, Repr

/-- Modelled from the spec: the two shutdown modes (section 4.7). -/

inductive Shutdown where
  | graceful
  | immediate
deriving DecidableEq, Repr

/-- Modelled from the spec: group mutation messages (section 4.5). -/

inductive GroupMsg where
  | add (name : String)
  | remove (name : String)
  | setLimit (name : String) (limit : Nat)
  | pauseGroup (name : String)
  | resumeGroup (name : String)
deriving DecidableEq, Repr

/-- Modelled from the spec: the inbound message set (sections 4.5 and 6).
The first seven constructors are the ones `handle_message` recognises
(src/daemon/task_handler/messages/mod.rs:27-38); `add`, `status` and
`logRequest` stand for the remaining client messages, which fall into the
wildcard arm. -/

inductive Message where
  | pauseMsg (tasks : List Nat) (children : Bool) (wait : Bool)
  | startMsg (tasks : List Nat) (children : Bool)
  | killMsg (tasks : List Nat) (children : Bool) (signal : Option Nat)
  | sendMsg (task_id : Nat) (input : List Nat)
  | resetMsg (children : Bool)
  | groupMsg (g : GroupMsg)
  | daemonShutdown (s : Shutdown)
  | add (command : String)
  | status
  | logRequest (tasks : List Nat)
deriving DecidableEq, Repr

/-- Modelled from the spec: the registry owned by the task handler
(section 3): task table, group table (name, parallelism limit, paused flag)
and the pending shutdown, plus the monotone id counter. -/

structure TaskHandler where
  tasks : List (Nat × TaskStatus)
  groups : List (String × Nat × Bool)
  counter : Nat
  shutdown : Option Shutdown
deriving DecidableEq, Repr

/-- Observable side effects of one dispatch step. -/

inductive Effect where
  | warnUnhandled (m : Message)
  | signalledStop (tasks : List Nat) (children : Bool) (wait : Bool)
  | signalledCont (tasks : List Nat) (children : Bool)
  | signalledKill (tasks : List Nat) (children : Bool) (signal : Option Nat)
  | sentInput (task_id : Nat) (input : List Nat)
  | didReset (children : Bool)
  | groupMutated (g : GroupMsg)
  | shutdownInitiated (s : Shutdown)
deriving DecidableEq, Repr

/-- Modelled from the spec: `pause` (section 4.3) sets matching running tasks
to `Paused` and delivers stop signals. -/

def pauseTasks (s : TaskHandler) (ids : List Nat) (children wait : Bool) :
    TaskHandler × List Effect :=
  ({ s with tasks := s.tasks.map fun t =>
      if t.1 ∈ ids ∧ t.2 = TaskStatus.running then (t.1, TaskStatus.paused) else t },
   [Effect.signalledStop ids children wait])

/-- Modelled from the spec: `start` (section 4.3) resumes matching paused
tasks. -/

def startTasks (s : TaskHandler) (ids : List Nat) (children : Bool) :
    TaskHandler × List Effect :=
  ({ s with tasks := s.tasks.map fun t =>
      if t.1 ∈ ids ∧ t.2 = TaskStatus.paused then (t.1, TaskStatus.running) else t },
   [Effect.signalledCont ids children])

/-- Modelled from the spec: `kill` (section 4.3) delivers the signal; the
status change is recorded later by the reaper. -/

def killTasks (s : TaskHandler) (ids : List Nat) (children : Bool)
    (signal : Option Nat) : TaskHandler × List Effect :=
  (s, [Effect.signalledKill ids children signal])

/-- Modelled from the spec: `send` (section 4.3) forwards bytes to the
child's stdin. -/

def sendInput (s : TaskHandler) (task_id : Nat) (input : List Nat) :
    TaskHandler × List Effect :=
  (s, [Effect.sentInput task_id input])

/-- Modelled from the spec: `reset` (section 4.5) clears the registry. -/

def resetAll (s : TaskHandler) (children : Bool) : TaskHandler × List Effect :=
  ({ s with tasks := [] }, [Effect.didReset children])

/-- Modelled from the spec: group mutation (sections 3 and 4.5). -/

def handle_group_message (s : TaskHandler) (g : GroupMsg) :
    TaskHandler × List Effect :=
  let groups :=
    match g with
    | GroupMsg.add name => s.groups ++ [(name, 1, false)]
    | GroupMsg.remove name => s.groups.filter fun gr => gr.1 ≠ name
    | GroupMsg.setLimit name limit =>
        s.groups.map fun gr => if gr.1 = name then (gr.1, limit, gr.2.2) else gr
    | GroupMsg.pauseGroup name =>
        s.groups.map fun gr => if gr.1 = name then (gr.1, gr.2.1, true) else gr
    | GroupMsg.resumeGroup name =>
        s.groups.map fun gr => if gr.1 = name then (gr.1, gr.2.1, false) else gr
  ({ s with groups := groups }, [Effect.groupMutated g])

/-- Modelled from the spec: `initiate_shutdown` (section 4.7) records the
pending shutdown mode. -/

def initiate_shutdown (s : TaskHandler) (sd : Shutdown) :
    TaskHandler × List Effect :=
  ({ s with shutdown := some sd }, [Effect.shutdownInitiated sd])

/-- `handle_message` (src/daemon/task_handler/messages/mod.rs:26-41): the
seven recognised messages are dispatched to their handlers; anything else is
logged at warn level and otherwise ignored. -/

def handle_message (s : TaskHandler) (m : Message) : TaskHandler × List Effect :=
  match m with
  | Message.pauseMsg tasks children wait => pauseTasks s tasks children wait
  | Message.startMsg tasks children => startTasks s tasks children
  | Message.killMsg tasks children signal => killTasks s tasks children signal
  | Message.sendMsg task_id input => sendInput s task_id input
  | Message.resetMsg children => resetAll s children
  | Message.groupMsg g => handle_group_message s g
  | Message.daemonShutdown sd => initiate_shutdown s sd
  | m => (s, [Effect.warnUnhandled m])

/-- Whether a message falls into one of the seven recognised arms of
`handle_message`. -/

def isHandledMessage (m : Message) : Bool :=
  match m with
  | Message.pauseMsg .. => true
  | Message.startMsg .. => true
  | Message.killMsg .. => true
  | Message.sendMsg .. => true
  | Message.resetMsg .. => true
  | Message.groupMsg .. => true
  | Message.daemonShutdown .. => true
  | _ => false

/-- Timeout, in milliseconds, of the blocking dequeue in `receive_messages`
(src/daemon/task_handler/messages/mod.rs:20). -/

def receiveTimeoutMs : Nat := 200

/-- `receive_messages` (src/daemon/task_handler/messages/mod.rs:18-24): one
call dequeues at most one message from the inbound channel (modelled as a
queue); an empty channel (timeout) leaves the state untouched. -/

def receive_messages (s : TaskHandler) (queue : List Message) :
    TaskHandler × List Message × List Effect :=
  match queue with
  | [] => (s, [], [])
  | m :: rest =>
    let r := handle_message s m
    (r.1, rest, r.2)

/-! ### `follow_local_task_logs` (src/client/display/follow.rs:56-69) -/

/-- One observation of the followed log file at the top of a polling pass:
whether the path still exists, and the file's current content. -/

structure FollowEnv where
  present : Bool
  content : List Nat
deriving DecidableEq, Repr

/-- The polling loop of `follow_local_task_logs`
(src/client/display/follow.rs:56-69), run against a finite trace of file
observations.  Each pass checks existence (stopping with the
"file went away" report, result `true`), copies the bytes from the cursor it
owns to the end of the file, advances the cursor to the end and sleeps;
an exhausted trace means the loop was still running (result `false`).
I/O errors are not modelled. -/

def runFollow (cursor : Nat) (trace : List FollowEnv) : List Nat × Bool :=
  match trace with
  | [] => ([], false)
  | e :: rest =>
    if e.present then
      let emitted := e.content.drop cursor
      let r := runFollow e.content.length rest
      (emitted ++ r.1, r.2)
    else ([], true)

/-- Milliseconds slept between polling passes of the follow loop
(src/client/display/follow.rs:67). -/

def followSleepMs : Nat := 100

/-! ### `seek_to_last_lines` (src/lib/src/log.rs:141-201)

A log file is a `List Nat` of bytes.  The `RevBufReader` from the
`rev_buf_reader` crate delivers the bytes of the file back to front starting
from the end of the stream; the `start_position` snapshot taken at entry
(log.rs:145) is therefore the file length.  The scan below follows
log.rs:154-198 byte for byte. -/

/-- The chunk size of the backwards reads in `seek_to_last_lines`
(log.rs:155, `vec![0; 4096]`). -/

def chunkSize : Nat := 4096

/-- The reverse scan of `seek_to_last_lines` (log.rs:154-198): `bytes` is the
remaining file content in reverse order, `start` is the `start_position`
snapshot, `total` is `total_read_bytes` and `found` is `found_lines`.  The
result is the `distance_to_file_start` value (an `i64` in the source)
computed when `found_lines` reaches `amount + 1`, and `none` when the scan
exhausts the file first. -/

def scanRev (bytes : List Nat) (start : Int) (total found amount : Nat) : Option Int :=
  match bytes with
  | [] => none
  | b :: rest =>
    if b = newlineByte then
      if found + 1 = amount + 1 then some (start - ((total + 1 : Nat) : Int) + 1)
      else scanRev rest start (total + 1) (found + 1) amount
    else scanRev rest start (total + 1) found amount

/-- The `distance_to_file_start` computed by `seek_to_last_lines` for a file
`f`, if the scan finds the `amount + 1`-th newline from the back. -/

def findTailStart (f : List Nat) (amount : Nat) : Option Int :=
  scanRev f.reverse (f.length : Int) 0 0 amount

/-- `seek_to_last_lines` (src/lib/src/log.rs:141-201), returning the final
position of the underlying file cursor.  When the scan exhausts the file the
reverse reader has consumed everything and the cursor rests at byte 0
(log.rs:160-162).  When the `amount + 1`-th newline is found, the distance is
clamped to 0 on a failed `u64` conversion (log.rs:187, `unwrap_or(0)`) and
the explicit seek happens only under the guard
`distance_to_file_start < start_position` (log.rs:190-194); when the guard
fails no seek is issued, and the cursor stays where the reverse reader's
chunked reading left it, namely at the start of the first chunk read from
the back: `f.length - min chunkSize f.length` (the guard can only fail on
the very first scanned byte). -/

def seek_to_last_lines (f : List Nat) (amount : Nat) : Nat :=
  match findTailStart f amount with
  | none => 0
  | some d =>
    let d' := d.toNat
    if d' < f.length then d' else f.length - min chunkSize f.length

/-- Position (0-based) of the `k`-th (1-based) newline of a byte list. -/

def nthNewline (r : List Nat) (k : Nat) : Option Nat :=
  match r with
  | [] => none
  | b :: rest =>
    if b = newlineByte then
      if k ≤ 1 then some 0 else (nthNewline rest (k - 1)).map (· + 1)
    else (nthNewline rest k).map (· + 1)

/-! ### `read_last_lines` (src/lib/src/log.rs:127-137)

`read_last_lines` walks the file's lines in reverse order through the
`RevBufReader` lines iterator (the file's forward `lines()`, last line
first), takes `amount` of them, decodes each line's bytes as UTF-8 —
substituting the string `"Failed to read line."` for a line that fails to
read or decode — and joins the reversed selection with newlines.  Decoded
strings are modelled as their codepoint sequences (`List Nat`). -/

/-- The forward line decomposition of a byte stream, matching Rust's
`lines()`: segments split at newline bytes, with a final empty segment
produced by a trailing newline not counted as a line.
(Carriage-return trimming is not modelled; no claim involves it.) -/

def linesOf (f : List Nat) : List (List Nat) :=
  let segs := f.splitOn newlineByte
  if segs.getLast? = some [] then segs.dropLast else segs

/-- Whether a byte is a UTF-8 continuation byte (`0x80..=0xBF`). -/

def isContByte (b : Nat) : Bool := 0x80 ≤ b && b ≤ 0xBF

/-- Strict UTF-8 decoding of a byte list to its codepoint sequence,
rejecting overlong forms, surrogates and values beyond `U+10FFFF`, as
Rust's `String` line reads do. -/

def utf8Decode : List Nat → Option (List Nat)
  | [] => some []
  | b :: rest =>
    if b ≤ 0x7F then (utf8Decode rest).map (b :: ·)
    else
      match rest with
      | [] => none
      | b1 :: r1 =>
        if 0xC2 ≤ b ∧ b ≤ 0xDF ∧ isContByte b1 then
          (utf8Decode r1).map (((b - 0xC0) * 64 + (b1 - 0x80)) :: ·)
        else
          match r1 with
          | [] => none
          | b2 :: r2 =>
            if ((b = 0xE0 ∧ 0xA0 ≤ b1 ∧ b1 ≤ 0xBF) ∨
                ((0xE1 ≤ b ∧ b ≤ 0xEC ∨ b = 0xEE ∨ b = 0xEF) ∧ isContByte b1) ∨
                (b = 0xED ∧ 0x80 ≤ b1 ∧ b1 ≤ 0x9F)) ∧ isContByte b2 then
              (utf8Decode r2).map
                (((b - 0xE0) * 4096 + (b1 - 0x80) * 64 + (b2 - 0x80)) :: ·)
            else
              match r2 with
              | [] => none
              | b3 :: r3 =>
                if ((b = 0xF0 ∧ 0x90 ≤ b1 ∧ b1 ≤ 0xBF) ∨
                    (0xF1 ≤ b ∧ b ≤ 0xF3 ∧ isContByte b1) ∨
                    (b = 0xF4 ∧ 0x80 ≤ b1 ∧ b1 ≤ 0x8F)) ∧
                    isContByte b2 ∧ isContByte b3 then
                  (utf8Decode r3).map
                    (((b - 0xF0) * 262144 + (b1 - 0x80) * 4096 +
                      (b2 - 0x80) * 64 + (b3 - 0x80)) :: ·)
                else none

/-- Codepoints of the placeholder string `"Failed to read line."`
(src/lib/src/log.rs:133). -/

def failedLineMsg : List Nat :=
  [70, 97, 105, 108, 101, 100, 32, 116, 111, 32, 114, 101, 97, 100, 32,
   108, 105, 110, 101, 46]

/-- One line of `read_last_lines`:
`line.unwrap_or_else(|_| "Failed to read line.".to_string())`. -/

def decodeLine (l : List Nat) : List Nat :=
  (utf8Decode l).getD failedLineMsg

/-- `read_last_lines` (src/lib/src/log.rs:127-137), producing the codepoint
sequence of the returned string. -/

def read_last_lines (f : List Nat) (amount : Nat) : List Nat :=
  List.intercalate [newlineByte]
    ((((linesOf f).reverse.take amount).map decodeLine).reverse)

/-! ### Snappy framing and `read_and_compress_log_files`
(src/lib/src/log.rs:54-79)

`read_and_compress_log_files` pipes each (possibly seeked) log file through
`snap::write::FrameEncoder`.  The `snap` crate is an external dependency; the
model below follows its framing format: the stream identifier chunk followed
by chunks of at most 65536 input bytes, each carried as an uncompressed
(type 0x01) chunk whose 3-byte little-endian length covers the masked
CRC-32C checksum (4 bytes little-endian) plus the data.  The crate's inner
LZ77 compression (type 0x00 chunks) is not modelled; uncompressed chunks are
part of the format and every conforming decoder accepts them. -/

/-- The snappy frame stream identifier chunk:
`0xff 0x06 0x00 0x00` followed by the bytes of `"sNaPpY"`. -/

def streamId : List Nat :=
  [255, 6, 0, 0, 115, 78, 97, 80, 112, 89]

/-- Maximum input bytes carried by one frame chunk. -/

def maxChunkData : Nat := 65536

/-- One byte step of the reflected CRC-32C (polynomial `0x82F63B78`). -/

def crc32cByte (crc b : Nat) : Nat :=
  (List.range 8).foldl
    (fun c _ => if c % 2 = 1 then (c / 2) ^^^ 0x82F63B78 else c / 2)
    (crc ^^^ b % 256)

/-- CRC-32C of a byte list. -/

def crc32c (data : List Nat) : Nat :=
  (data.foldl crc32cByte 0xFFFFFFFF) ^^^ 0xFFFFFFFF

/-- The snappy frame format's checksum mask:
`(crc >> 15 | crc << 17) + 0xa282ead8` on wrapping 32-bit values. -/

def maskCrc (c : Nat) : Nat :=
  (((c >>> 15) ||| ((c <<< 17) % 4294967296)) + 0xa282ead8) % 4294967296

/-- Little-endian rendering of the 3-byte chunk length field. -/

def le3 (n : Nat) : List Nat := [n % 256, n / 256 % 256, n / 65536 % 256]

/-- Little-endian rendering of the 4-byte checksum field. -/

def le4 (n : Nat) : List Nat :=
  [n % 256, n / 256 % 256, n / 65536 % 256, n / 16777216 % 256]

/-- One uncompressed (type 0x01) frame chunk carrying `d`. -/

def encodeChunk (d : List Nat) : List Nat :=
  1 :: (le3 (d.length + 4) ++ (le4 (maskCrc (crc32c d)) ++ d))

/-- Frame-encode a buffer in blocks of at most 65536 bytes. -/

def frameBody (b : List Nat) : List Nat :=
  if h : b = [] then []
  else encodeChunk (b.take maxChunkData) ++ frameBody (b.drop maxChunkData)
termination_by b.length
decreasing_by
  simp only [List.length_drop]
  have hlen : b.length ≠ 0 := fun hh => h (List.length_eq_zero.1 hh)
  unfold maxChunkData
  omega

/-- `snap::write::FrameEncoder` applied to a whole buffer. -/

def frameEncode (b : List Nat) : List Nat := streamId ++ frameBody b

/-- Parse a sequence of uncompressed frame chunks, verifying the length
field and the masked checksum of each. -/

def decodeBody (s : List Nat) : Option (List Nat) :=
  match s with
  | [] => some []
  | 1 :: l0 :: l1 :: l2 :: c0 :: c1 :: c2 :: c3 :: rest =>
    let n := l0 + 256 * l1 + 65536 * l2
    if 4 ≤ n ∧ n - 4 ≤ rest.length ∧ n - 4 ≤ maxChunkData then
      let d := rest.take (n - 4)
      if c0 + 256 * c1 + 65536 * c2 + 16777216 * c3 = maskCrc (crc32c d) then
        (decodeBody (rest.drop (n - 4))).map (d ++ ·)
      else none
    else none
  | _ => none
termination_by s.length
decreasing_by
  simp only [List.length_drop, List.length_cons]
  omega

/-- The snappy frame decoder: stream identifier, then chunks. -/

def frameDecode (s : List Nat) : Option (List Nat) :=
  if s.take 10 = streamId then decodeBody (s.drop 10) else none

/-- `read_and_compress_log_files` (src/lib/src/log.rs:54-79): open both log
files (cursors at byte 0), optionally seek both to the last `lines` lines,
then pipe the bytes from each cursor to end-of-file through the snappy
frame encoder. -/

def read_and_compress_log_files (stdout_file stderr_file : List Nat)
    (lines : Option Nat) : List Nat × List Nat :=
  let ostart := match lines with
    | some l => seek_to_last_lines stdout_file l
    | none => 0
  let estart := match lines with
    | some l => seek_to_last_lines stderr_file l
    | none => 0
  (frameEncode (stdout_file.drop ostart), frameEncode (stderr_file.drop estart))

/-! ### Settings backward compatibility
(src/lib/tests/settings_backward_compatibility.rs)

`Settings`, `Settings::read` and the checked-in `v0.15.0_settings.yml`
fixture are not present under `src/`; they are modelled from the
specification (sections 6 and 8): a serialized settings file may omit any
field, defaults fill the gaps, and the deprecated `daemon.groups`
group-to-limit map survives the load. -/

/-- Modelled from the spec: daemon-side settings, including the deprecated
legacy `groups` map from v0.15.0 (group name to parallelism limit). -/

structure DaemonSettings where
  default_parallel_tasks : Nat
  pause_on_shutdown : Bool
  groups : Option (List (String × Nat))
deriving DecidableEq, Repr

/-- Modelled from the spec: client-side settings. -/

structure ClientSettings where
  read_local_logs : Bool
deriving DecidableEq, Repr

/-- Modelled from the spec: the full settings tree. -/

structure Settings where
  client : ClientSettings
  daemon : DaemonSettings
deriving DecidableEq, Repr

/-- Modelled from the spec: a serialized settings file, in which every field
may be absent (dropped fields must never break deserialization). -/

structure PartialSettings where
  client_read_local_logs : Option Bool
  daemon_default_parallel_tasks : Option Nat
  daemon_pause_on_shutdown : Option Bool
  daemon_groups : Option (List (String × Nat))
deriving DecidableEq, Repr

/-- Modelled from the spec: fill every absent field with its default
(default parallelism 1, spec section 6). -/

def fillDefaults (p : PartialSettings) : Settings :=
  { client := { read_local_logs := p.client_read_local_logs.getD true }
    daemon :=
      { default_parallel_tasks := p.daemon_default_parallel_tasks.getD 1
        pause_on_shutdown := p.daemon_pause_on_shutdown.getD false
        groups := p.daemon_groups } }

/-- Modelled from the spec: `Settings::read` with an optional settings file;
a present file always deserializes (defaults fill missing fields) and
reports `config_found = true`. -/

def settings_read (file : Option PartialSettings) : Option (Settings × Bool) :=
  match file with
  | none => some (fillDefaults ⟨none, none, none, none⟩, false)
  | some p => some (fillDefaults p, true)

/-- Modelled from the spec: the checked-in v0.15.0 settings fixture, with
some default fields removed and the legacy `webhook` group mapped to
parallelism limit 1. -/

def v0_15_0_settings : PartialSettings :=
  { client_read_local_logs := none
    daemon_default_parallel_tasks := none
    daemon_pause_on_shutdown := none
    daemon_groups := some [("webhook", 1)] }

/-! ### Proofs -/

theorem fromDigits_append_singleton (l : List Nat) (x : Nat) :
    fromDigits (l ++ [x]) = fromDigits l * 10 + x := by
  simp [fromDigits, List.foldl_append]

theorem fromDigits_toDigits (n : Nat) : fromDigits (toDigits n) = n := by
  rw [toDigits]
  split
  · simp [fromDigits]
  · rw [fromDigits_append_singleton, fromDigits_toDigits (n / 10)]
    omega
termination_by n
decreasing_by
  exact Nat.div_lt_self (by omega) (by omega)

theorem toDigits_injective : Function.Injective toDigits := by
  intro a b h
  have := fromDigits_toDigits a
  rw [h, fromDigits_toDigits] at this
  omega

/-- Helper: two log paths under the same root agree iff their file names do. -/

theorem log_path_eq_iff (path : PathC) (f g : List Nat) :
    path ++ [taskLogsComponent] ++ [f] = path ++ [taskLogsComponent] ++ [g] ↔ f = g := by
  constructor
  · intro h
    have h2 := List.append_inj_right h (by simp)
    simpa using h2
  · intro h; rw [h]

/-- Helper: appending distinct equal-length name tails to digit strings can
only collide when both the ids and the tails coincide. -/

theorem digits_tail_eq (a b : Nat) (s t : List Nat) (hlen : s.length = t.length)
    (h : toDigits a ++ s = toDigits b ++ t) : a = b ∧ s = t := by
  have := List.append_inj' h hlen
  exact ⟨toDigits_injective this.1, this.2⟩

theorem shutdownLoop_eq_true_iff (alive : Nat → Bool) (current tries : Nat) :
    shutdownLoop alive current tries = true ↔
      ∃ i, current ≤ i ∧ i < tries ∧ alive i = false := by
  rw [shutdownLoop]
  by_cases hc : current < tries
  · rw [if_pos hc]
    by_cases ha : alive current
    · rw [if_pos ha, shutdownLoop_eq_true_iff alive (current + 1) tries]
      constructor
      · rintro ⟨i, h1, h2, h3⟩; exact ⟨i, by omega, h2, h3⟩
      · rintro ⟨i, h1, h2, h3⟩
        refine ⟨i, ?_, h2, h3⟩
        rcases Nat.eq_or_lt_of_le h1 with h | h
        · exfalso; rw [← h] at h3; rw [ha] at h3; cases h3
        · omega
    · simp only [if_neg ha, true_iff]
      exact ⟨current, Nat.le_refl _, hc, by simpa using ha⟩
  · rw [if_neg hc]
    constructor
    · intro h; cases h
    · rintro ⟨i, h1, h2, _⟩; omega
termination_by tries - current

theorem runFollow_nil (cursor : Nat) : runFollow cursor [] = ([], false) := rfl

theorem runFollow_cons (cursor : Nat) (e : FollowEnv) (rest : List FollowEnv) :
    runFollow cursor (e :: rest) =
      if e.present then
        (e.content.drop cursor ++ (runFollow e.content.length rest).1,
          (runFollow e.content.length rest).2)
      else ([], true) := rfl

theorem runFollow_gone_iff (cursor : Nat) (trace : List FollowEnv) :
    (runFollow cursor trace).2 = true ↔ ∃ e ∈ trace, e.present = false := by
  induction trace generalizing cursor with
  | nil => simp [runFollow]
  | cons e rest ih =>
    by_cases hp : e.present
    · simp only [runFollow, if_pos hp, ih]
      constructor
      · rintro ⟨x, hx, h⟩; exact ⟨x, List.mem_cons_of_mem _ hx, h⟩
      · rintro ⟨x, hx, h⟩
        rcases List.mem_cons.1 hx with rfl | hx
        · rw [hp] at h; cases h
        · exact ⟨x, hx, h⟩
    · simp only [runFollow, if_neg hp]
      constructor
      · intro _; exact ⟨e, List.mem_cons_self _ _, by simpa using hp⟩
      · intro _; trivial

/-- Helper: in a trace linked by the prefix order, the first content is a
prefix of the last. -/

theorem chain_first_pre_last (e : FollowEnv) (rest : List FollowEnv)
    (h : List.Chain' (fun a b => a.content <+: b.content) (e :: rest)) :
    e.content <+: ((e :: rest).getLast (List.cons_ne_nil e rest)).content := by
  induction rest generalizing e with
  | nil => simp
  | cons f rest ih =>
    have h1 : e.content <+: f.content := (List.chain'_cons.1 h).1
    have h2 := ih f (List.chain'_cons.1 h).2
    calc e.content <+: f.content := h1
      _ <+: _ := by simpa using h2

/-- Helper: an all-present polling run over a prefix-monotone trace emits
exactly the suffix of the final content that starts at the initial cursor. -/

theorem runFollow_output (cursor : Nat) (e : FollowEnv) (rest : List FollowEnv)
    (hch : List.Chain' (fun a b => a.content <+: b.content) (e :: rest))
    (hall : ∀ x ∈ e :: rest, x.present = true)
    (hc : cursor ≤ e.content.length) :
    (runFollow cursor (e :: rest)).1 =
      (((e :: rest).getLast (List.cons_ne_nil e rest)).content).drop cursor := by
  induction rest generalizing cursor e with
  | nil =>
    simp [runFollow, hall e (List.mem_cons_self _ _)]
  | cons f rest ih =>
    have hp := hall e (List.mem_cons_self _ _)
    have hef : e.content <+: f.content := (List.chain'_cons.1 hch).1
    have hlen : e.content.length ≤ f.content.length := hef.length_le
    have hrec := ih e.content.length f (List.chain'_cons.1 hch).2
      (fun x hx => hall x (List.mem_cons_of_mem _ hx)) hlen
    have hlast : ((e :: f :: rest).getLast (List.cons_ne_nil _ _)) =
        ((f :: rest).getLast (List.cons_ne_nil _ _)) := by
      simp [List.getLast_cons]
    have hpre : e.content <+:
        ((f :: rest).getLast (List.cons_ne_nil f rest)).content := by
      have := chain_first_pre_last f rest (List.chain'_cons.1 hch).2
      calc e.content <+: f.content := hef
        _ <+: _ := this
    obtain ⟨t, ht⟩ := hpre
    rw [runFollow_cons, if_pos hp]
    simp only [hlast, hrec, ← ht]
    rw [List.drop_left, List.drop_append_of_le_length hc]

theorem scanRev_eq (bytes : List Nat) (start : Int) (total found amount : Nat)
    (h : found ≤ amount) :
    scanRev bytes start total found amount =
      (nthNewline bytes (amount + 1 - found)).map
        (fun i : Nat => start - (total : Int) - (i : Int)) := by
  induction bytes generalizing total found with
  | nil => rfl
  | cons b rest ih =>
    by_cases hb : b = newlineByte
    · by_cases hf : found = amount
      · subst hf
        have h1 : found + 1 - found ≤ 1 := by omega
        simp only [scanRev, nthNewline, if_pos hb, if_pos rfl, if_pos h1, if_true,
          Option.map_some']
        congr 1
        push_cast
        omega
      · have hne : ¬ (found + 1 = amount + 1) := by omega
        have h1 : ¬ (amount + 1 - found ≤ 1) := by omega
        simp only [scanRev, nthNewline, if_pos hb, if_neg hne, if_neg h1]
        rw [ih (total + 1) (found + 1) (by omega)]
        have hk : amount + 1 - (found + 1) = amount + 1 - found - 1 := by omega
        rw [hk]
        cases hn : nthNewline rest (amount + 1 - found - 1) with
        | none => simp
        | some j =>
          simp only [Option.map_some']
          congr 1
          push_cast
          omega
    · simp only [scanRev, nthNewline, if_neg hb]
      rw [ih (total + 1) found h]
      cases hn : nthNewline rest (amount + 1 - found) with
      | none => simp
      | some j =>
        simp only [hn, Option.map_some']
        congr 1
        push_cast
        omega

theorem findTailStart_eq (f : List Nat) (n : Nat) :
    findTailStart f n =
      (nthNewline f.reverse (n + 1)).map
        (fun i : Nat => (f.length : Int) - (i : Int)) := by
  unfold findTailStart
  rw [scanRev_eq _ _ _ _ _ (Nat.zero_le n)]
  have h0 : n + 1 - 0 = n + 1 := by omega
  rw [h0]
  cases hn : nthNewline f.reverse (n + 1) with
  | none => simp
  | some j =>
    simp only [Option.map_some']
    norm_num

theorem nthNewline_some (r : List Nat) (k i : Nat) (hk : 1 ≤ k)
    (h : nthNewline r k = some i) :
    i < r.length ∧ r[i]? = some newlineByte ∧
      (r.take i).count newlineByte = k - 1 := by
  induction r generalizing k i with
  | nil => simp [nthNewline] at h
  | cons b rest ih =>
    by_cases hb : b = newlineByte
    · by_cases h1 : k ≤ 1
      · have hk1 : k = 1 := by omega
        rw [nthNewline, if_pos hb, if_pos h1] at h
        cases h
        refine ⟨by simp, by simp [hb], by simp [hk1]⟩
      · rw [nthNewline, if_pos hb, if_neg h1] at h
        obtain ⟨j, hj, rfl⟩ := Option.map_eq_some'.1 h
        obtain ⟨l1, l2, l3⟩ := ih (k - 1) j (by omega) hj
        refine ⟨by simp; omega, by simpa using l2, ?_⟩
        rw [List.take_succ_cons, List.count_cons]
        simp only [hb, beq_iff_eq, if_true, if_pos trivial]
        omega
    · rw [nthNewline, if_neg hb] at h
      obtain ⟨j, hj, rfl⟩ := Option.map_eq_some'.1 h
      obtain ⟨l1, l2, l3⟩ := ih k j hk hj
      refine ⟨by simp; omega, by simpa using l2, ?_⟩
      rw [List.take_succ_cons, List.count_cons]
      simp only [beq_iff_eq, if_neg hb]
      omega

theorem nthNewline_none (r : List Nat) (k : Nat) (hk : 1 ≤ k) :
    nthNewline r k = none ↔ r.count newlineByte < k := by
  induction r generalizing k with
  | nil => simp [nthNewline]; omega
  | cons b rest ih =>
    by_cases hb : b = newlineByte
    · by_cases h1 : k ≤ 1
      · rw [nthNewline, if_pos hb, if_pos h1]
        rw [List.count_cons]
        simp only [hb, beq_iff_eq, if_true, if_pos trivial]
        constructor
        · intro hx; cases hx
        · intro hx; omega
      · rw [nthNewline, if_pos hb, if_neg h1]
        rw [Option.map_eq_none', ih (k - 1) (by omega)]
        rw [List.count_cons]
        simp only [hb, beq_iff_eq, if_true, if_pos trivial]
        omega
    · rw [nthNewline, if_neg hb]
      rw [Option.map_eq_none', ih k hk]
      rw [List.count_cons]
      simp only [beq_iff_eq, if_neg hb]
      omega

/-- The full behaviour of `seek_to_last_lines` outside the degenerate
`amount = 0`-with-trailing-newline corner: the cursor lands at a position
`B` with exactly `min amount (total newlines)` newlines behind it, `B` is 0
or sits right after a newline, and a file with fewer than `amount` newlines
leaves the cursor at byte 0. -/

theorem seek_to_last_lines_spec (f : List Nat) (n : Nat)
    (h : 1 ≤ n ∨ f.getLast? ≠ some newlineByte) :
    ((f.drop (seek_to_last_lines f n)).count newlineByte =
        min n (f.count newlineByte)) ∧
    (seek_to_last_lines f n = 0 ∨
      (1 ≤ seek_to_last_lines f n ∧
        f[seek_to_last_lines f n - 1]? = some newlineByte)) ∧
    (f.count newlineByte < n → seek_to_last_lines f n = 0) := by
  rcases hft : findTailStart f n with _ | d
  · have hnone : nthNewline f.reverse (n + 1) = none := by
      rw [findTailStart_eq] at hft
      exact Option.map_eq_none'.1 hft
    have hcount : f.reverse.count newlineByte < n + 1 :=
      (nthNewline_none _ _ (by omega)).1 hnone
    rw [List.count_reverse] at hcount
    have hB : seek_to_last_lines f n = 0 := by
      unfold seek_to_last_lines
      rw [hft]
    rw [hB]
    refine ⟨?_, Or.inl rfl, fun _ => rfl⟩
    simp only [List.drop_zero]
    omega
  · have hnth : ∃ i, nthNewline f.reverse (n + 1) = some i ∧
        d = (f.length : Int) - i := by
      rw [findTailStart_eq] at hft
      cases h' : nthNewline f.reverse (n + 1) with
      | none => rw [h'] at hft; cases hft
      | some i =>
        rw [h'] at hft
        simp only [Option.map_some', Option.some.injEq] at hft
        exact ⟨i, rfl, hft.symm⟩
    obtain ⟨i, hi, rfl⟩ := hnth
    obtain ⟨hilen, hbyte, hcnt⟩ := nthNewline_some _ _ _ (by omega) hi
    rw [List.length_reverse] at hilen
    have hcnt' : (f.reverse.take i).count newlineByte = n := by
      simpa using hcnt
    have hi1 : 1 ≤ i := by
      rcases Nat.eq_zero_or_pos i with h0 | h0
      · exfalso
        subst h0
        rw [List.take_zero, List.count_nil] at hcnt'
        rcases h with hn | hlast
        · omega
        · apply hlast
          rw [← List.head?_reverse, List.head?_eq_getElem?]
          exact hbyte
      · exact h0
    have hcf : n + 1 ≤ f.count newlineByte := by
      rw [← List.count_reverse]
      conv_rhs => rw [← List.take_append_drop i f.reverse]
      rw [List.count_append]
      have hmem : newlineByte ∈ f.reverse.drop i := by
        have hg : (f.reverse.drop i)[0]? = some newlineByte := by
          rw [List.getElem?_drop]
          simpa using hbyte
        exact List.getElem?_mem hg
      have := List.count_pos_iff.2 hmem
      omega
    have hd : ((f.length : Int) - i).toNat = f.length - i := by omega
    have hguard : f.length - i < f.length := by omega
    have hB : seek_to_last_lines f n = f.length - i := by
      unfold seek_to_last_lines
      rw [hft]
      simp only [hd, if_pos hguard]
    rw [hB]
    have hdrop : f.drop (f.length - i) = (f.reverse.take i).reverse := by
      have hr := List.rtake_eq_reverse_take_reverse (l := f) (n := i)
      simpa [List.rtake] using hr
    refine ⟨?_, ?_, ?_⟩
    · rw [hdrop, List.count_reverse, hcnt']
      omega
    · right
      refine ⟨by omega, ?_⟩
      have hrev := List.getElem?_reverse (l := f) (i := i) hilen
      rw [hrev] at hbyte
      have heq : f.length - i - 1 = f.length - 1 - i := by omega
      rw [heq]
      exact hbyte
    · intro hlt
      omega

theorem splitOnP_sep_not_mem (p : Nat → Bool) (xs : List Nat) :
    ∀ s ∈ xs.splitOnP p, ∀ x ∈ s, ¬ p x := by
  induction xs with
  | nil =>
    intro s hs x hx
    rw [List.splitOnP_nil] at hs
    rcases List.mem_singleton.1 hs with rfl
    cases hx
  | cons b rest ih =>
    intro s hs x hx
    rw [List.splitOnP_cons] at hs
    by_cases hp : p b
    · rw [if_pos hp] at hs
      rcases List.mem_cons.1 hs with rfl | hs
      · cases hx
      · exact ih s hs x hx
    · rw [if_neg hp] at hs
      cases hsplit : rest.splitOnP p with
      | nil => exact absurd hsplit (List.splitOnP_ne_nil p rest)
      | cons hd tl =>
        rw [hsplit] at hs
        simp only [List.modifyHead] at hs
        rcases List.mem_cons.1 hs with rfl | hs
        · rcases List.mem_cons.1 hx with rfl | hx
          · exact hp
          · exact ih hd (hsplit ▸ List.mem_cons_self hd tl) x hx
        · exact ih s (hsplit ▸ List.mem_cons_of_mem hd hs) x hx

/-- Segments produced by `splitOn` never contain the separator. -/

theorem splitOn_sep_not_mem (a : Nat) (xs : List Nat) :
    ∀ s ∈ xs.splitOn a, a ∉ s := by
  intro s hs ha
  exact splitOnP_sep_not_mem (· == a) xs s hs a ha (by simp)

/-- Lines of a file never contain the newline byte. -/

theorem linesOf_no_newline (f : List Nat) :
    ∀ s ∈ linesOf f, newlineByte ∉ s := by
  intro s hs
  apply splitOn_sep_not_mem newlineByte f
  simp only [linesOf] at hs
  by_cases hlast : (f.splitOn newlineByte).getLast? = some ([] : List Nat)
  · rw [if_pos hlast] at hs
    exact (List.dropLast_sublist _).subset hs
  · rw [if_neg hlast] at hs
    exact hs

/-- Every decoded codepoint is either a multi-byte value (at least 0x80) or
one of the input bytes. -/

theorem utf8Decode_vals (l : List Nat) :
    ∀ cs, utf8Decode l = some cs → ∀ c ∈ cs, 128 ≤ c ∨ c ∈ l := by
  induction l using utf8Decode.induct with
  | case1 =>
    intro cs h c hc
    rw [utf8Decode.eq_def] at h
    simp only [Option.some.injEq] at h
    subst h
    cases hc
  | case2 b rest hb ih =>
    intro cs h c hc
    rw [utf8Decode.eq_def] at h
    simp only [if_pos hb] at h
    obtain ⟨cs', hcs', rfl⟩ := Option.map_eq_some'.1 h
    rcases List.mem_cons.1 hc with rfl | hc
    · exact Or.inr (List.mem_cons_self _ _)
    · rcases ih cs' hcs' c hc with hm | hm
      · exact Or.inl hm
      · exact Or.inr (List.mem_cons_of_mem _ hm)
  | case3 b hb =>
    intro cs h
    rw [utf8Decode.eq_def] at h
    simp only [if_neg hb] at h
    exact Option.noConfusion h
  | case4 b hb b1 r1 hcond ih =>
    intro cs h c hc
    rw [utf8Decode.eq_def] at h
    simp only [if_neg hb, if_pos hcond] at h
    obtain ⟨cs', hcs', rfl⟩ := Option.map_eq_some'.1 h
    rcases List.mem_cons.1 hc with rfl | hc
    · left; omega
    · rcases ih cs' hcs' c hc with hm | hm
      · exact Or.inl hm
      · exact Or.inr (by simp [List.mem_cons]; tauto)
  | case5 b hb b1 hcond =>
    intro cs h
    rw [utf8Decode.eq_def] at h
    simp only [if_neg hb, if_neg hcond] at h
    exact Option.noConfusion h
  | case6 b hb b1 hc1 b2 r2 hcond ih =>
    intro cs h c hc
    rw [utf8Decode.eq_def] at h
    simp only [if_neg hb, if_neg hc1, if_pos hcond] at h
    obtain ⟨cs', hcs', rfl⟩ := Option.map_eq_some'.1 h
    rcases List.mem_cons.1 hc with rfl | hc
    · left
      rcases hcond with ⟨hd, _⟩
      rcases hd with ⟨rfl, hlo, _⟩ | ⟨hr, _⟩ | ⟨rfl, hlo, _⟩
      · omega
      · rcases hr with ⟨h1, _⟩ | rfl | rfl <;> omega
      · omega
    · rcases ih cs' hcs' c hc with hm | hm
      · exact Or.inl hm
      · exact Or.inr (by simp [List.mem_cons]; tauto)
  | case7 b hb b1 hc1 b2 hcond =>
    intro cs h
    rw [utf8Decode.eq_def] at h
    simp only [if_neg hb, if_neg hc1, if_neg hcond] at h
    exact Option.noConfusion h
  | case8 b hb b1 hc1 b2 hc2 b3 r3 hcond ih =>
    intro cs h c hc
    rw [utf8Decode.eq_def] at h
    simp only [if_neg hb, if_neg hc1, if_neg hc2, if_pos hcond] at h
    obtain ⟨cs', hcs', rfl⟩ := Option.map_eq_some'.1 h
    rcases List.mem_cons.1 hc with rfl | hc
    · left
      rcases hcond with ⟨hd, _, _⟩
      rcases hd with ⟨rfl, hlo, _⟩ | ⟨h1, _⟩ | ⟨rfl, hlo, _⟩ <;> omega
    · rcases ih cs' hcs' c hc with hm | hm
      · exact Or.inl hm
      · exact Or.inr (by simp [List.mem_cons]; tauto)
  | case9 b hb b1 hc1 b2 hc2 b3 r3 hcond =>
    intro cs h
    rw [utf8Decode.eq_def] at h
    simp only [if_neg hb, if_neg hc1, if_neg hc2, if_neg hcond] at h
    exact Option.noConfusion h

/-- A newline-free byte line decodes (when it decodes at all) to a
newline-free codepoint line. -/

theorem utf8Decode_no_newline (l cs : List Nat) (hl : newlineByte ∉ l)
    (h : utf8Decode l = some cs) : newlineByte ∉ cs := by
  intro hmem
  rcases utf8Decode_vals l cs h newlineByte hmem with hge | hin
  · simp [newlineByte] at hge
  · exact hl hin

/-- A nonempty byte line never decodes to an empty codepoint line. -/

theorem utf8Decode_ne_nil (l : List Nat) :
    ∀ cs, utf8Decode l = some cs → l ≠ [] → cs ≠ [] := by
  induction l using utf8Decode.induct with
  | case1 =>
    intro cs _ hl
    exact absurd rfl hl
  | case2 b rest hb ih =>
    intro cs h _
    rw [utf8Decode.eq_def] at h
    simp only [if_pos hb] at h
    obtain ⟨cs', _, rfl⟩ := Option.map_eq_some'.1 h
    simp
  | case3 b hb =>
    intro cs h
    rw [utf8Decode.eq_def] at h
    simp only [if_neg hb] at h
    exact Option.noConfusion h
  | case4 b hb b1 r1 hcond ih =>
    intro cs h _
    rw [utf8Decode.eq_def] at h
    simp only [if_neg hb, if_pos hcond] at h
    obtain ⟨cs', _, rfl⟩ := Option.map_eq_some'.1 h
    simp
  | case5 b hb b1 hcond =>
    intro cs h
    rw [utf8Decode.eq_def] at h
    simp only [if_neg hb, if_neg hcond] at h
    exact Option.noConfusion h
  | case6 b hb b1 hc1 b2 r2 hcond ih =>
    intro cs h _
    rw [utf8Decode.eq_def] at h
    simp only [if_neg hb, if_neg hc1, if_pos hcond] at h
    obtain ⟨cs', _, rfl⟩ := Option.map_eq_some'.1 h
    simp
  | case7 b hb b1 hc1 b2 hcond =>
    intro cs h
    rw [utf8Decode.eq_def] at h
    simp only [if_neg hb, if_neg hc1, if_neg hcond] at h
    exact Option.noConfusion h
  | case8 b hb b1 hc1 b2 hc2 b3 r3 hcond ih =>
    intro cs h _
    rw [utf8Decode.eq_def] at h
    simp only [if_neg hb, if_neg hc1, if_neg hc2, if_pos hcond] at h
    obtain ⟨cs', _, rfl⟩ := Option.map_eq_some'.1 h
    simp
  | case9 b hb b1 hc1 b2 hc2 b3 r3 hcond =>
    intro cs h
    rw [utf8Decode.eq_def] at h
    simp only [if_neg hb, if_neg hc1, if_neg hc2, if_neg hcond] at h
    exact Option.noConfusion h

/-- Decoded (or placeholder) lines never contain the newline codepoint. -/

theorem decodeLine_no_newline (l : List Nat) (hl : newlineByte ∉ l) :
    newlineByte ∉ decodeLine l := by
  unfold decodeLine
  cases h : utf8Decode l with
  | none => simp [failedLineMsg, newlineByte]
  | some cs => simpa using utf8Decode_no_newline l cs hl h

/-- A nonempty line stays nonempty after decoding or substitution. -/

theorem decodeLine_ne_nil (l : List Nat) (hl : l ≠ []) :
    decodeLine l ≠ [] := by
  unfold decodeLine
  cases h : utf8Decode l with
  | none => simp [failedLineMsg]
  | some cs => simpa using utf8Decode_ne_nil l cs h hl

/-- The lines of the string returned by `read_last_lines` are exactly the
decoded last `amount` lines of the file, and their number is
`min amount (number of lines)`, provided the last selected line is nonempty
(the join cannot re-split a trailing empty line). -/

theorem read_last_lines_lines (f : List Nat) (n : Nat)
    (h : ((linesOf f).reverse.take n).head? ≠ some ([] : List Nat)) :
    linesOf (read_last_lines f n) =
        (((linesOf f).reverse.take n).map decodeLine).reverse ∧
    (linesOf (read_last_lines f n)).length = min n (linesOf f).length := by
  rcases hselc : (linesOf f).reverse.take n with _ | ⟨l0, ls⟩
  · have hmin : min n (linesOf f).length = 0 := by
      have hlen := congrArg List.length hselc
      simpa using hlen
    have hrl : read_last_lines f n = [] := by
      unfold read_last_lines
      rw [hselc]
      rfl
    rw [hrl, hmin]
    exact ⟨by decide, by decide⟩
  · have hl0 : l0 ≠ [] := by
      intro h0
      subst h0
      exact h (by rw [hselc]; rfl)
    have hmem : ∀ s ∈ ((l0 :: ls).map decodeLine).reverse, newlineByte ∉ s := by
      intro s hs
      rw [List.mem_reverse, List.mem_map] at hs
      obtain ⟨x, hx, rfl⟩ := hs
      apply decodeLine_no_newline
      apply linesOf_no_newline f
      have hx2 : x ∈ (linesOf f).reverse.take n := hselc ▸ hx
      exact List.mem_reverse.1 (List.mem_of_mem_take hx2)
    have hne : ((l0 :: ls).map decodeLine).reverse ≠ [] := by simp
    have hsplit : (List.intercalate [newlineByte]
        (((l0 :: ls).map decodeLine).reverse)).splitOn newlineByte =
        ((l0 :: ls).map decodeLine).reverse :=
      List.splitOn_intercalate _ newlineByte hmem hne
    have hlastne : (((l0 :: ls).map decodeLine).reverse).getLast? ≠
        some ([] : List Nat) := by
      rw [List.getLast?_reverse, List.head?_map]
      simp only [List.head?_cons, Option.map_some']
      intro hh
      exact decodeLine_ne_nil l0 hl0 (Option.some.inj hh)
    have hlines : linesOf (read_last_lines f n) =
        ((l0 :: ls).map decodeLine).reverse := by
      unfold read_last_lines
      rw [hselc]
      unfold linesOf
      rw [hsplit, if_neg hlastne]
    refine ⟨by rw [hlines], ?_⟩
    rw [hlines]
    have hlen := congrArg List.length hselc
    simp only [List.length_take, List.length_reverse] at hlen
    simp only [List.length_reverse, List.length_map]
    omega

theorem decodeBody_frameBody (b : List Nat) : decodeBody (frameBody b) = some b := by
  rw [frameBody]
  by_cases h : b = []
  · rw [dif_pos h, h, decodeBody.eq_def]
  · rw [dif_neg h]
    have ih := decodeBody_frameBody (b.drop maxChunkData)
    have hk : (b.take maxChunkData).length ≤ maxChunkData := by
      simp [List.length_take]
    set d := b.take maxChunkData with hd
    set rest := frameBody (b.drop maxChunkData) with hrest
    have hshape : encodeChunk d ++ rest =
        1 :: (d.length + 4) % 256 :: ((d.length + 4) / 256 % 256) ::
        ((d.length + 4) / 65536 % 256) ::
        (maskCrc (crc32c d) % 256) :: (maskCrc (crc32c d) / 256 % 256) ::
        (maskCrc (crc32c d) / 65536 % 256) ::
        (maskCrc (crc32c d) / 16777216 % 256) :: (d ++ rest) := by
      simp [encodeChunk, le3, le4]
    rw [hshape, decodeBody.eq_def]
    simp only []
    have hn : (d.length + 4) % 256 + 256 * ((d.length + 4) / 256 % 256) +
        65536 * ((d.length + 4) / 65536 % 256) = d.length + 4 := by
      have := hk
      unfold maxChunkData at this
      omega
    rw [hn]
    have hcond : 4 ≤ d.length + 4 ∧ d.length + 4 - 4 ≤ (d ++ rest).length ∧
        d.length + 4 - 4 ≤ maxChunkData := by
      refine ⟨by omega, ?_, by omega⟩
      simp
    rw [if_pos hcond]
    have hdrop : d.length + 4 - 4 = d.length := by omega
    rw [hdrop, List.take_left, List.drop_left]
    have hm : maskCrc (crc32c d) < 4294967296 := by
      unfold maskCrc
      omega
    have hcrc : maskCrc (crc32c d) % 256 +
        256 * (maskCrc (crc32c d) / 256 % 256) +
        65536 * (maskCrc (crc32c d) / 65536 % 256) +
        16777216 * (maskCrc (crc32c d) / 16777216 % 256) =
        maskCrc (crc32c d) := by
      omega
    rw [hcrc, if_pos rfl, ih]
    rw [hd]
    simp [List.take_append_drop]
termination_by b.length
decreasing_by
  simp only [List.length_drop]
  have hlen : b.length ≠ 0 := fun hh => h (List.length_eq_zero.1 hh)
  unfold maxChunkData
  omega

/-- Round trip through the modelled snappy framer is the identity. -/

theorem frameDecode_frameEncode (b : List Nat) :
    frameDecode (frameEncode b) = some b := by
  unfold frameDecode frameEncode
  rw [List.take_left' (by rfl), List.drop_left' (by rfl)]
  rw [if_pos rfl]
  exact decodeBody_frameBody b

/-! ### Claim theorems -/

/-- C1 (amended): for every file `F` and count `n` with `n` at least 1 or
`F` not ending in a newline, `seek_to_last_lines(F, n)` leaves the cursor at
a byte `B` such that the suffix of `F` from `B` holds exactly
`min n (total newlines of F)` newlines, `B` is byte 0 or immediately follows
a newline, and fewer than `n` newlines leave the cursor at byte 0.  (The
excluded corner `n = 0` with a trailing newline fails the guard at
log.rs:190 and performs no seek; see the counterexample.) -/

theorem c1_seek_to_last_lines (f : List Nat) (n : Nat)
    (h : 1 ≤ n ∨ f.getLast? ≠ some newlineByte) :
    ((f.drop (seek_to_last_lines f n)).count newlineByte =
        min n (f.count newlineByte)) ∧
    (seek_to_last_lines f n = 0 ∨
      (1 ≤ seek_to_last_lines f n ∧
        f[seek_to_last_lines f n - 1]? = some newlineByte)) ∧
    (f.count newlineByte < n → seek_to_last_lines f n = 0) :=
  seek_to_last_lines_spec f n h

/-- C1 witness: on the file `"hi\n"` with `n = 1` the amended claim holds
concretely. -/

theorem c1_witness :
    (([104, 105, 10].drop (seek_to_last_lines [104, 105, 10] 1)).count
        newlineByte = min 1 (([104, 105, 10] : List Nat).count newlineByte)) ∧
    (seek_to_last_lines [104, 105, 10] 1 = 0 ∨
      (1 ≤ seek_to_last_lines [104, 105, 10] 1 ∧
        [104, 105, 10][seek_to_last_lines [104, 105, 10] 1 - 1]? =
          some newlineByte)) ∧
    (([104, 105, 10] : List Nat).count newlineByte < 1 →
        seek_to_last_lines [104, 105, 10] 1 = 0) :=
  c1_seek_to_last_lines [104, 105, 10] 1 (Or.inl (by decide))

/-- C1 counterexample: on the file `"a\n"` with `n = 0` the code performs no
seek and the reverse reader leaves the cursor at byte 0, so the suffix from
the cursor holds 1 newline instead of the claimed
`min 0 (total newlines) = 0`. -/

theorem c1_counterexample :
    seek_to_last_lines [97, 10] 0 = 0 ∧
    ¬ (([97, 10].drop (seek_to_last_lines [97, 10] 0)).count newlineByte =
        min 0 (([97, 10] : List Nat).count newlineByte)) := by
  exact ⟨by decide, by decide⟩

/-- C2 (amended): the string returned by `read_last_lines(F, n)` splits back
into exactly the decoded last `min n (line count)` lines of `F` — each
unreadable line replaced by the placeholder — and so its line count is
`min n (line count of F)`, provided the file's last line (the final element
of the selection) is nonempty
(joining with newlines cannot re-split a trailing empty line; see the
counterexample). -/

theorem c2_read_last_lines (f : List Nat) (n : Nat)
    (h : ((linesOf f).reverse.take n).head? ≠ some ([] : List Nat)) :
    linesOf (read_last_lines f n) =
        (((linesOf f).reverse.take n).map decodeLine).reverse ∧
    (linesOf (read_last_lines f n)).length = min n (linesOf f).length :=
  read_last_lines_lines f n h

/-- C2 witness: on the file `"hi\n"` with `n = 1` the amended claim holds
concretely. -/

theorem c2_witness :
    linesOf (read_last_lines [104, 105, 10] 1) =
        (((linesOf [104, 105, 10]).reverse.take 1).map decodeLine).reverse ∧
    (linesOf (read_last_lines [104, 105, 10] 1)).length =
        min 1 (linesOf [104, 105, 10]).length :=
  c2_read_last_lines [104, 105, 10] 1 (by decide)

/-- C2 counterexample: the file `"a\n\n"` has two lines (`"a"` and an empty
one); requesting the last 2 joins them into `"a\n"`, whose line count is 1,
not `min 2 2 = 2`. -/

theorem c2_counterexample :
    read_last_lines [97, 10, 10] 2 = [97, 10] ∧
    (linesOf (read_last_lines [97, 10, 10] 2)).length = 1 ∧
    (linesOf [97, 10, 10]).length = 2 ∧
    ¬ ((linesOf (read_last_lines [97, 10, 10] 2)).length =
        min 2 (linesOf [97, 10, 10]).length) := by
  exact ⟨by decide, by decide, by decide, by decide⟩

/-- C3 (amended): the snappy framer round-trips every buffer; without a line
count `read_and_compress_log_files` compresses both whole files; with a line
count `n ≥ 1` each compressed buffer decompresses to the suffix of the
corresponding file chosen by the seek: it starts at byte 0 or right after a
newline and holds exactly `min n (total newlines)` newlines.  (For `n = 0`
on a newline-terminated file the seek corner of C1 returns more than the
last-0-lines suffix; see the counterexample.) -/

theorem c3_read_and_compress (fo fe B : List Nat) (n : Nat) (hn : 1 ≤ n) :
    frameDecode (frameEncode B) = some B ∧
    frameDecode (read_and_compress_log_files fo fe none).1 = some fo ∧
    frameDecode (read_and_compress_log_files fo fe none).2 = some fe ∧
    (∃ Bo, frameDecode (read_and_compress_log_files fo fe (some n)).1 =
        some (fo.drop Bo) ∧
      (fo.drop Bo).count newlineByte = min n (fo.count newlineByte) ∧
      (Bo = 0 ∨ fo[Bo - 1]? = some newlineByte)) ∧
    (∃ Be, frameDecode (read_and_compress_log_files fo fe (some n)).2 =
        some (fe.drop Be) ∧
      (fe.drop Be).count newlineByte = min n (fe.count newlineByte) ∧
      (Be = 0 ∨ fe[Be - 1]? = some newlineByte)) := by
  refine ⟨frameDecode_frameEncode B, ?_, ?_, ?_, ?_⟩
  · show frameDecode (frameEncode (fo.drop 0)) = some fo
    rw [List.drop_zero]
    exact frameDecode_frameEncode fo
  · show frameDecode (frameEncode (fe.drop 0)) = some fe
    rw [List.drop_zero]
    exact frameDecode_frameEncode fe
  · refine ⟨seek_to_last_lines fo n, frameDecode_frameEncode _, ?_, ?_⟩
    · exact (seek_to_last_lines_spec fo n (Or.inl hn)).1
    · rcases (seek_to_last_lines_spec fo n (Or.inl hn)).2.1 with h0 | ⟨_, hb⟩
      · exact Or.inl h0
      · exact Or.inr hb
  · refine ⟨seek_to_last_lines fe n, frameDecode_frameEncode _, ?_, ?_⟩
    · exact (seek_to_last_lines_spec fe n (Or.inl hn)).1
    · rcases (seek_to_last_lines_spec fe n (Or.inl hn)).2.1 with h0 | ⟨_, hb⟩
      · exact Or.inl h0
      · exact Or.inr hb

/-- C3 witness: concrete instance of the amended claim at the files `"hi\n"`
and `""`, buffer `[1, 2, 3]` and `n = 1`. -/

theorem c3_witness :
    frameDecode (frameEncode [1, 2, 3]) = some [1, 2, 3] ∧
    frameDecode (read_and_compress_log_files [104, 105, 10] [] none).1 =
        some [104, 105, 10] ∧
    frameDecode (read_and_compress_log_files [104, 105, 10] [] none).2 =
        some [] ∧
    (∃ Bo, frameDecode
        (read_and_compress_log_files [104, 105, 10] [] (some 1)).1 =
        some ([104, 105, 10].drop Bo) ∧
      ([104, 105, 10].drop Bo).count newlineByte =
        min 1 (([104, 105, 10] : List Nat).count newlineByte) ∧
      (Bo = 0 ∨ [104, 105, 10][Bo - 1]? = some newlineByte)) ∧
    (∃ Be, frameDecode
        (read_and_compress_log_files [104, 105, 10] [] (some 1)).2 =
        some (([] : List Nat).drop Be) ∧
      (([] : List Nat).drop Be).count newlineByte =
        min 1 (([] : List Nat).count newlineByte) ∧
      (Be = 0 ∨ ([] : List Nat)[Be - 1]? = some newlineByte)) :=
  c3_read_and_compress [104, 105, 10] [] [1, 2, 3] 1 (by decide)

/-- C3 counterexample: with `n = 0` on the newline-terminated file `"a\n"`,
the compressed stdout buffer decompresses to the whole file — one newline —
while the last-0-lines suffix must hold `min 0 1 = 0` newlines. -/

theorem c3_counterexample :
    frameDecode (read_and_compress_log_files [97, 10] [] (some 0)).1 =
        some [97, 10] ∧
    ¬ (([97, 10] : List Nat).count newlineByte =
        min 0 (([97, 10] : List Nat).count newlineByte)) := by
  constructor
  · have h0 : seek_to_last_lines [97, 10] 0 = 0 := by decide
    show frameDecode
        (frameEncode ([97, 10].drop (seek_to_last_lines [97, 10] 0))) = _
    rw [h0, List.drop_zero]
    exact frameDecode_frameEncode [97, 10]
  · decide

/-- C4: `handle_message` leaves the task-handler state untouched on every
message outside the seven recognised ones and only emits the warn-level
log entry. -/

theorem c4_handle_message_unhandled (s : TaskHandler) (m : Message)
    (h : isHandledMessage m = false) :
    handle_message s m = (s, [Effect.warnUnhandled m]) := by
  cases m <;> first
    | rfl
    | simp [isHandledMessage] at h

/-- C4 witness: a `status` query against the empty handler state is warned
about and ignored. -/

theorem c4_witness :
    handle_message ⟨[], [], 0, none⟩ Message.status =
      (⟨[], [], 0, none⟩, [Effect.warnUnhandled Message.status]) :=
  c4_handle_message_unhandled ⟨[], [], 0, none⟩ Message.status rfl

/-- C5: one `receive_messages` call dequeues at most one message — the head
of the queue, fully handled before returning — and a timeout (empty queue)
returns with the state unchanged; the blocking dequeue uses the 200 ms
timeout constant. -/

theorem c5_receive_messages (s : TaskHandler) (m : Message)
    (rest : List Message) :
    receive_messages s [] = (s, [], []) ∧
    receive_messages s (m :: rest) =
      ((handle_message s m).1, rest, (handle_message s m).2) ∧
    receiveTimeoutMs = 200 :=
  ⟨rfl, rfl, rfl⟩

/-- C6: the follow loop stops exactly when the file disappears, and while
the file persists and only grows it emits exactly the suffix of the final
content past the initial cursor — every byte once, in file order — sleeping
100 ms between passes. -/

theorem c6_follow_loop (cursor : Nat) (e : FollowEnv) (rest : List FollowEnv)
    (hch : List.Chain' (fun a b => a.content <+: b.content) (e :: rest))
    (hc : cursor ≤ e.content.length) :
    ((runFollow cursor (e :: rest)).2 = true ↔
      ∃ x ∈ e :: rest, x.present = false) ∧
    ((∀ x ∈ e :: rest, x.present = true) →
      (runFollow cursor (e :: rest)).1 =
        (((e :: rest).getLast (List.cons_ne_nil e rest)).content).drop cursor) ∧
    followSleepMs = 100 :=
  ⟨runFollow_gone_iff cursor (e :: rest),
   fun hall => runFollow_output cursor e rest hch hall hc, rfl⟩

/-- C6 witness: a concrete two-pass trace of a growing file, followed from
cursor 1. -/

theorem c6_witness :
    ((runFollow 1 [⟨true, [7, 10]⟩, ⟨true, [7, 10, 13]⟩]).2 = true ↔
      ∃ x ∈ [(⟨true, [7, 10]⟩ : FollowEnv), ⟨true, [7, 10, 13]⟩],
        x.present = false) ∧
    ((∀ x ∈ [(⟨true, [7, 10]⟩ : FollowEnv), ⟨true, [7, 10, 13]⟩],
        x.present = true) →
      (runFollow 1 [⟨true, [7, 10]⟩, ⟨true, [7, 10, 13]⟩]).1 =
        (([(⟨true, [7, 10]⟩ : FollowEnv), ⟨true, [7, 10, 13]⟩].getLast
          (List.cons_ne_nil _ _)).content).drop 1) ∧
    followSleepMs = 100 :=
  c6_follow_loop 1 ⟨true, [7, 10]⟩ [⟨true, [7, 10, 13]⟩]
    (by constructor
        · exact ⟨[13], rfl⟩
        · exact List.chain'_singleton _)
    (by decide)

/-- C7: `wait_for_shutdown` succeeds exactly when the process lookup already
failed at entry or some of the 40 alive-samples (50 ms apart, about 2 s in
total) reports the process gone; staying alive through all samples is an
error. -/

theorem c7_wait_for_shutdown (lk : Bool) (alive : Nat → Bool) :
    (wait_for_shutdown lk alive = true ↔
      lk = false ∨ ∃ i, i < shutdownTries ∧ alive i = false) ∧
    shutdownTries = 40 ∧ shutdownPollMs = 50 := by
  refine ⟨?_, rfl, rfl⟩
  unfold wait_for_shutdown
  cases lk with
  | false =>
    simp
  | true =>
    rw [if_pos rfl, shutdownLoop_eq_true_iff]
    constructor
    · rintro ⟨i, _, h2, h3⟩
      exact Or.inr ⟨i, h2, h3⟩
    · rintro (h | ⟨i, h2, h3⟩)
      · cases h
      · exact ⟨i, Nat.zero_le i, h2, h3⟩

/-- C8: reading any partial settings blob succeeds (defaults fill dropped
fields), and the modelled v0.15.0 fixture loads with `config_found` and its
legacy `webhook` group mapped to parallelism limit 1. -/

theorem c8_settings_backcompat :
    (∀ p : PartialSettings, (settings_read (some p)).isSome = true) ∧
    settings_read (some v0_15_0_settings) =
      some (fillDefaults v0_15_0_settings, true) ∧
    (fillDefaults v0_15_0_settings).daemon.groups = some [("webhook", 1)] ∧
    (((fillDefaults v0_15_0_settings).daemon.groups.getD []).lookup
        "webhook") = some 1 := by
  refine ⟨fun p => rfl, rfl, rfl, ?_⟩
  decide

/-- C9: `seek_to_last_lines` never places the cursor past the entry
snapshot (the file length) — offsets are naturally non-negative — and
whenever the scan finds a distance it is at least 1, so the clamping
`unwrap_or(0)` at log.rs:187 and the unwrap at log.rs:190 can never
observe a failed conversion. -/

theorem c9_seek_bounds (f : List Nat) (n : Nat) :
    seek_to_last_lines f n ≤ f.length ∧
    (∀ d, findTailStart f n = some d → 1 ≤ d ∧ d.toNat ≤ f.length) := by
  have hsome : ∀ d, findTailStart f n = some d → 1 ≤ d ∧ d.toNat ≤ f.length := by
    intro d hd
    rw [findTailStart_eq] at hd
    cases hn : nthNewline f.reverse (n + 1) with
    | none => rw [hn] at hd; cases hd
    | some i =>
      rw [hn] at hd
      simp only [Option.map_some', Option.some.injEq] at hd
      have hi := nthNewline_some _ _ _ (by omega) hn
      rw [List.length_reverse] at hi
      have hilen := hi.1
      omega
  refine ⟨?_, hsome⟩
  unfold seek_to_last_lines
  cases hft : findTailStart f n with
  | none => exact Nat.zero_le _
  | some d =>
    simp only []
    by_cases hlt : d.toNat < f.length
    · rw [if_pos hlt]
      omega
    · rw [if_neg hlt]
      omega

/-- C9 witness: on the file `"\na\n"` with `n = 1` the scan finds distance
1, within bounds. -/

theorem c9_witness :
    (1 : Int) ≤ 1 ∧ (1 : Int).toNat ≤ ([10, 97, 10] : List Nat).length :=
  (c9_seek_bounds [10, 97, 10] 1).2 1 (by decide)

/-- C10: `get_log_paths` is injective in the task id under a fixed root:
stdout and stderr paths of distinct tasks are pairwise distinct, and a
task's stdout path never aliases its stderr path. -/

theorem c10_get_log_paths (path : PathC) (a b : Nat) (hab : a ≠ b) :
    (get_log_paths a path).1 ≠ (get_log_paths b path).1 ∧
    (get_log_paths a path).1 ≠ (get_log_paths b path).2 ∧
    (get_log_paths a path).2 ≠ (get_log_paths b path).1 ∧
    (get_log_paths a path).2 ≠ (get_log_paths b path).2 ∧
    (get_log_paths a path).1 ≠ (get_log_paths a path).2 := by
  refine ⟨?_, ?_, ?_, ?_, ?_⟩ <;> intro h <;>
    simp only [get_log_paths] at h <;>
    obtain ⟨hid, hst⟩ := digits_tail_eq _ _ _ _ (by decide)
      ((log_path_eq_iff path _ _).1 h)
  · exact hab hid
  · exact absurd hst (by decide)
  · exact absurd hst (by decide)
  · exact hab hid
  · exact absurd hst (by decide)

/-- C10 witness: tasks 0 and 1 under the empty root have four pairwise
distinct log paths. -/

theorem c10_witness :
    (get_log_paths 0 []).1 ≠ (get_log_paths 1 []).1 ∧
    (get_log_paths 0 []).1 ≠ (get_log_paths 1 []).2 ∧
    (get_log_paths 0 []).2 ≠ (get_log_paths 1 []).1 ∧
    (get_log_paths 0 []).2 ≠ (get_log_paths 1 []).2 ∧
    (get_log_paths 0 []).1 ≠ (get_log_paths 0 []).2 :=
  c10_get_log_paths [] 0 1 (by decide)

end Pueue
